import Mathlib

/-!
Verification of the streaming/agent backend (`backend/app.py`,
`backend/services/streaming_service.py`, `backend/services/graph_service.py`,
`backend/services/agent_service.py`).

We shallowly embed the event-normalisation layer (the `/chat/stream`
callback and `StreamingService._handle_tool_call`), the producer/consumer
queue of `generate_stream`, and the reflection graph
(`GraphService.create_reflection_graph`) and prove the behavioural
properties stated in the specification against those embeddings.
-/

namespace MCPBackend

/-! ## Shared data types -/

/-- A LangChain-style tool-call dictionary `{id, name, args}` as it appears in
`response.tool_calls` / Anthropic `tool_use` blocks.  `none` models an absent
key (or an explicit Python `None`), mirroring `dict.get`. -/
structure GToolCall where
  id : Option String
  name : Option String
  args : List (String × String)
deriving DecidableEq, Repr

/-- Abstract rendering of `json.dumps(args, indent=2)`.  The claims never
inspect the serialised text beyond it being a function of `args`, so we keep a
simple one-line JSON rendering. -/
def jsonDumps (args : List (String × String)) : String :=
  "\x7b" ++ String.intercalate ", " (args.map fun p => "\"" ++ p.1 ++ "\": \"" ++ p.2 ++ "\"") ++ "\x7d"

/-- `models.StreamingChatResponse`: the SSE payload pushed on the chunk queue.
`type` is one of `"text"`, `"tool"`, `"complete"`, `"error"` as constructed in
`backend/app.py`. -/
structure StreamingChatResponse where
  type : String
  content : String
  tool_call_id : Option String
  is_complete : Bool
deriving DecidableEq, Repr

/-- The terminal completion event enqueued by `run_chat`'s `finally` block:
`StreamingChatResponse(type="complete", content="", is_complete=True)`. -/
def completeResp : StreamingChatResponse :=
  { type := "complete", content := "", tool_call_id := none, is_complete := true }

/-- The error event yielded by the consumer loop's `except` branch:
`StreamingChatResponse(type="error", content=str(e), is_complete=True)`. -/
def errorResp (msg : String) : StreamingChatResponse :=
  { type := "error", content := msg, tool_call_id := none, is_complete := true }

/-- A StreamEvent is terminal when its kind is `complete` or `error`. -/
def terminalB (e : StreamingChatResponse) : Bool :=
  e.type = "complete" || e.type = "error"

/-! ## `StreamingService._handle_tool_call`

State: `self.seen_tool_calls : Set[str]`.  The method emits at most one
combined callback event (`node="tool_args"`, carrying id, name and args). -/

/-- The single combined event `_handle_tool_call` sends through the callback. -/
structure ToolArgsEvent where
  tool_call_id : String
  tool_name : String
  args : List (String × String)
deriving DecidableEq, Repr

/-- Python truthiness of `tool_call.get('id')` / `.get('name')`:
falsy iff the key is absent/None or the string is empty. -/
def falsyB : Option String → Bool
  | none => true
  | some s => s = ""

/-- `StreamingService._handle_tool_call`, lines 105-137 of
`streaming_service.py`: guard on falsy id/name, dedup on the seen set, record
the id, drop `Complete`, otherwise emit the combined event. -/
def handleToolCall (seen : List String) (tc : GToolCall) :
    List String × Option ToolArgsEvent :=
  if falsyB tc.id || falsyB tc.name then (seen, none)
  else
    let tid := tc.id.getD ""
    let tname := tc.name.getD ""
    if tid ∈ seen then (seen, none)
    else
      let seen' := tid :: seen
      if tname = "Complete" then (seen', none)
      else (seen', some { tool_call_id := tid, tool_name := tname, args := tc.args })

/-- Fold `_handle_tool_call` over a sequence of raw tool-call increments,
collecting the emitted events in order. -/
def handleToolCalls (seen : List String) : List GToolCall → List String × List ToolArgsEvent
  | [] => (seen, [])
  | tc :: rest =>
    match handleToolCall seen tc with
    | (seen', none) =>
      handleToolCalls seen' rest
    | (seen', some e) =>
      let (seenFin, evs) := handleToolCalls seen' rest
      (seenFin, e :: evs)

/-- Number of events for identifier `i` emitted while processing `l` from seen
set `seen`. -/
def htcEmissions (seen : List String) (i : String) (l : List GToolCall) : Nat :=
  (((handleToolCalls seen l).2).filter (fun e => e.tool_call_id = i)).length

/-! ## The `/chat/stream` callback (`streaming_callback` in `backend/app.py`)

Per-request state: `seen_tool_calls : set`, `collected_tool_calls : list`,
and the `chunk_queue` (the queue is unbounded, so `put_nowait` never raises
`QueueFull`; we model the queue as the list of enqueued responses). -/

structure CBState where
  /-- `seen_tool_calls`.  The `tool_args` branch may add a Python `None`
  identifier (when `content.get('tool_call_id')` is absent), hence
  `Option String` elements. -/
  seen : List (Option String)
  /-- `collected_tool_calls` : a list of strings. -/
  collected : List String
  /-- events placed on `chunk_queue`, in FIFO order. -/
  queue : List StreamingChatResponse
deriving DecidableEq, Repr

def CBState.init : CBState := { seen := [], collected := [], queue := [] }

/-- Payload of a `node == "tool_args"` callback chunk (a dict produced by
`graph_service.tool_node` / `StreamingService._handle_tool_call`):
`tool_call_id = content.get('tool_call_id')`,
`tool_name = content.get('tool_name', 'unknown')`,
`args = content.get('args', {})`. -/
structure ToolArgsChunk where
  tool_call_id : Option String
  tool_name : String
  args : List (String × String)
deriving DecidableEq, Repr

/-- The `elif node == "tool_args"` branch of `streaming_callback`
(`app.py` lines 320-357).  The "Tool: name" enqueue is guarded by the seen
set; the following "Tool Input: ..." enqueue is guarded only by `if args:`. -/
def handleToolArgsChunk (st : CBState) (c : ToolArgsChunk) : CBState :=
  let st1 :=
    if c.tool_name ≠ "unknown" ∧ c.tool_call_id ∉ st.seen then
      { st with
        seen := c.tool_call_id :: st.seen,
        collected := st.collected ++ ["Tool: " ++ c.tool_name],
        queue := st.queue ++
          [{ type := "tool", content := "Tool: " ++ c.tool_name,
             tool_call_id := c.tool_call_id, is_complete := false }] }
    else st
  if c.args ≠ [] then
    { st1 with
      queue := st1.queue ++
        [{ type := "tool", content := "Tool Input: " ++ jsonDumps c.args,
           tool_call_id := c.tool_call_id, is_complete := false }] }
  else st1

/-- Payload of a `node == "tools"` callback chunk (a `ToolMessage`):
`name = getattr(content, 'name', 'unknown')`,
`tool_call_id = getattr(content, 'tool_call_id', None)`, and the textual
result.  An absent/falsy `content.content` is modelled as the empty string. -/
structure ToolsChunk where
  name : String
  tool_call_id : Option String
  content : String
deriving DecidableEq, Repr

/-- The `elif node == "tools"` branch of `streaming_callback`
(`app.py` lines 359-380): formats `"Tool Result: {content}"` and enqueues it
only when that string is not already in `collected_tool_calls`. -/
def handleToolsChunk (st : CBState) (c : ToolsChunk) : CBState :=
  if c.content = "" then st
  else
    let tr := "Tool Result: " ++ c.content
    if tr ∈ st.collected then st
    else
      { st with
        collected := st.collected ++ [tr],
        queue := st.queue ++
          [{ type := "tool", content := tr,
             tool_call_id := c.tool_call_id, is_complete := false }] }

/-! ### The `node == "agent"` branch of `streaming_callback` -/

/-- One element of an Anthropic-style structured content list. -/
inductive ContentBlock
  /-- a dict with `"type": "text"`; `text = item.get("text", "")`. -/
  | textB (text : String)
  /-- a dict with `"type": "tool_use"`; id/name may be absent. -/
  | toolUseB (id : Option String) (name : Option String)
  /-- a non-dict item or a dict of another type: skipped by the loop. -/
  | otherB
deriving DecidableEq, Repr

/-- The `.content` attribute of an agent chunk: either a plain string
(OpenAI shape) or a list of typed blocks (Anthropic shape). -/
inductive PyContent
  | str (s : String)
  | blocks (l : List ContentBlock)
deriving DecidableEq, Repr

/-- An agent-node chunk message: optional `.content` attribute plus the
`.tool_calls` attribute (empty list models absent or falsy). -/
structure AgentMsg where
  content : Option PyContent
  tool_calls : List GToolCall
deriving DecidableEq, Repr

/-- Loop over `content.tool_calls` (`app.py` lines 294-318).
`tool_name = tool_call.get('name', 'Unknown')`,
`tool_id = tool_call.get('id', f"TOOLNAME_LEN")` where the synthesised default
appends `len(collected_tool_calls)` to the name.  A surfaced call enqueues
`"Tool: name"` and returns; a skipped call continues the loop; a `Complete`
call is put in the seen set and the loop continues. -/
def processAgentToolCalls (st : CBState) : List GToolCall → CBState
  | [] => st
  | tc :: rest =>
    let tool_name := tc.name.getD "Unknown"
    let tool_id := tc.id.getD (tool_name ++ "_" ++ toString st.collected.length)
    if tool_name ≠ "Unknown" ∧ (some tool_id) ∉ st.seen then
      let st' := { st with seen := some tool_id :: st.seen }
      if tool_name = "Complete" then processAgentToolCalls st' rest
      else
        { st' with
          collected := st'.collected ++ ["Tool: " ++ tool_name],
          queue := st'.queue ++
            [{ type := "tool", content := "Tool: " ++ tool_name,
               tool_call_id := some tool_id, is_complete := false }] }
    else processAgentToolCalls st rest

/-- Loop over a structured content list (`app.py` lines 240-279).  A text
block with non-empty text enqueues a `text` event and returns; a `tool_use`
block is surfaced through the same seen-set guard as `processAgentToolCalls`
(the agent branch never emits the arguments). -/
def processBlocks (st : CBState) : List ContentBlock → CBState
  | [] => st
  | ContentBlock.textB t :: rest =>
    if t ≠ "" then
      { st with
        queue := st.queue ++
          [{ type := "text", content := t, tool_call_id := none, is_complete := false }] }
    else processBlocks st rest
  | ContentBlock.toolUseB id name :: rest =>
    let tool_name := name.getD "Unknown"
    let tool_id := id.getD (tool_name ++ "_" ++ toString st.collected.length)
    if tool_name ≠ "Unknown" ∧ (some tool_id) ∉ st.seen then
      let st' := { st with seen := some tool_id :: st.seen }
      if tool_name = "Complete" then processBlocks st' rest
      else
        { st' with
          collected := st'.collected ++ ["Tool: " ++ tool_name],
          queue := st'.queue ++
            [{ type := "tool", content := "Tool: " ++ tool_name,
               tool_call_id := some tool_id, is_complete := false }] }
    else processBlocks st rest
  | ContentBlock.otherB :: rest => processBlocks st rest

/-- The `if node == "agent"` branch of `streaming_callback`
(`app.py` lines 221-318).  The three `elif` arms in order: non-blank string
content → one `text` event; truthy content → block loop (a truthy
whitespace-only string falls through with no event); otherwise a truthy
`.tool_calls` list → the tool-call loop. -/
def handleAgentChunk (st : CBState) (m : AgentMsg) : CBState :=
  match m.content with
  | some (PyContent.str s) =>
    if s.trim ≠ "" then
      { st with
        queue := st.queue ++
          [{ type := "text", content := s, tool_call_id := none, is_complete := false }] }
    else if s ≠ "" then st
    else processAgentToolCalls st m.tool_calls
  | some (PyContent.blocks l) =>
    if l ≠ [] then processBlocks st l
    else processAgentToolCalls st m.tool_calls
  | none => processAgentToolCalls st m.tool_calls

/-- A raw chunk delivered to `streaming_callback`, tagged by `node`. -/
inductive CallbackChunk
  | agent (m : AgentMsg)
  | tool_args (c : ToolArgsChunk)
  | tools (c : ToolsChunk)
  /-- any other node (for example `reflect`): the callback returns `None`. -/
  | other
deriving Repr

/-- Dispatch of `streaming_callback` on `chunk["node"]`. -/
def applyCallback (st : CBState) : CallbackChunk → CBState
  | CallbackChunk.agent m => handleAgentChunk st m
  | CallbackChunk.tool_args c => handleToolArgsChunk st c
  | CallbackChunk.tools c => handleToolsChunk st c
  | CallbackChunk.other => st

/-- All callbacks of one run, applied in order from the fresh per-request
state. -/
def runCallbacks (cs : List CallbackChunk) : CBState :=
  cs.foldl applyCallback CBState.init

/-! ## Producer / consumer of `generate_stream` (`app.py` lines 385-442)

The producer task `run_chat` awaits `agent_service.chat` inside
`try ... finally`; every enqueue during the run goes through
`streaming_callback`, and the `finally` block sets `chat_complete = True` and
enqueues `completeResp` with no intervening `await` (so, under cooperative
scheduling, the consumer can never observe `chat_complete` without the
completion event already queued).  The consumer loop forwards queued events in
FIFO order, breaks after forwarding an event of type `"complete"`, and on an
unexpected exception yields one `errorResp` and breaks. -/

/-- Outcome of `await agent_service.chat(...)` inside `run_chat`: either it
returns, or it raises (`RuntimeError` from a timeout or any other error). -/
inductive ChatOutcome
  | ok
  | raised (msg : String)
deriving DecidableEq, Repr

/-- The full FIFO content of `chunk_queue` over the run: the events enqueued
by `streaming_callback`, then the completion event from the `finally` block —
on every exit path of `run_chat`. -/
def producerQueue (bodyEvents : List StreamingChatResponse) :
    ChatOutcome → List StreamingChatResponse
  | ChatOutcome.ok => bodyEvents ++ [completeResp]
  | ChatOutcome.raised _ => bodyEvents ++ [completeResp]

/-- Decrement an optional fault countdown. -/
def decFault : Option Nat → Option Nat
  | none => none
  | some n => some (n - 1)

/-- The consumer loop of `generate_stream`.  `fault = some k` models an
unexpected exception raised while forwarding the `k`-th queued item (the
`except Exception` arm yields `errorResp` and breaks); `fault = none` is the
normal path.  Returns the list of events yielded to the SSE transport. -/
def consume (emsg : String) : List StreamingChatResponse → Option Nat → List StreamingChatResponse
  | [], _ => []
  | e :: rest, fault =>
    if fault = some 0 then [errorResp emsg]
    else if e.type = "complete" then [e]
    else e :: consume emsg rest (decFault fault)

/-! ## `agent_service.chat` error wrapping (`agent_service.py` lines 279-304) -/

/-- Outcome of the graph run inside `asyncio.wait_for`. -/
inductive GraphOutcome
  | finished
  | timedOut
  | failed (msg : String)
deriving DecidableEq, Repr

/-- How `AgentService.chat` maps the graph outcome to what the caller of the
coroutine observes: `asyncio.TimeoutError` becomes
`RuntimeError(f"Request timed out after TIMEOUT seconds")` and any other
exception becomes `RuntimeError(f"Error during chat: ...")`. -/
def chatOutcome (timeout_seconds : Nat) : GraphOutcome → ChatOutcome
  | GraphOutcome.finished => ChatOutcome.ok
  | GraphOutcome.timedOut =>
    ChatOutcome.raised ("Request timed out after " ++ toString timeout_seconds ++ " seconds")
  | GraphOutcome.failed m => ChatOutcome.raised ("Error during chat: " ++ m)

/-- Batch mode (`/chat` endpoint): the coroutine result is returned, a raise
surfaces to the endpoint as an error. -/
def chatBatch (timeout_seconds : Nat) (g : GraphOutcome) : Except String Unit :=
  match chatOutcome timeout_seconds g with
  | ChatOutcome.ok => Except.ok ()
  | ChatOutcome.raised m => Except.error m

/-! ## The reflection graph (`graph_service.py`)

`ReflectionState` is declared as a plain `TypedDict` with *unannotated*
fields, so every field of the compiled `StateGraph` is a `LastValue`
channel: the partial dict a node returns *replaces* each mentioned field and
leaves unmentioned fields unchanged.  `applyUpdate` embeds exactly that merge
rule. -/

/-- A `ToolMessage` as built by `tool_node`. -/
structure ToolMsg where
  content : String
  tool_call_id : String
  name : String
deriving DecidableEq, Repr

/-- A conversation entry (`BaseMessage`). -/
inductive Message
  | human (content : String)
  | ai (content : String) (tool_calls : List GToolCall)
  | tool (m : ToolMsg)
deriving DecidableEq, Repr

/-- `ReflectionState` (`graph_service.py` lines 14-22).  `max_loops` is read
with `state.get("max_loops", 10)`, so an absent key is modelled as `none`. -/
structure ReflectionState where
  messages : List Message
  loop_step : Nat
  original_request : String
  tools_available : List String
  current_progress : String
  is_complete : Bool
  max_loops : Option Nat
deriving DecidableEq, Repr

/-- `state.get("max_loops", 10)`. -/
def maxLoopsOf (s : ReflectionState) : Nat := s.max_loops.getD 10

/-- The partial dict a node returns; `none` = key not in the dict. -/
structure StateUpdate where
  messages : Option (List Message) := none
  loop_step : Option Nat := none
  current_progress : Option String := none
  is_complete : Option Bool := none
deriving DecidableEq, Repr

/-- LangGraph channel merge for unannotated `TypedDict` fields (`LastValue`):
each key present in the update replaces the field wholesale. -/
def applyUpdate (s : ReflectionState) (u : StateUpdate) : ReflectionState :=
  { s with
    messages := u.messages.getD s.messages,
    loop_step := u.loop_step.getD s.loop_step,
    current_progress := u.current_progress.getD s.current_progress,
    is_complete := u.is_complete.getD s.is_complete }

/-- Outcome of `model_with_tools.ainvoke(messages)` inside `agent_node`. -/
inductive ModelOutcome
  | reply (content : String) (tool_calls : List GToolCall)
  | raise (msg : String)
deriving Repr

/-- `agent_node` (`graph_service.py` lines 70-123).  On success it returns the
model response as the sole message, `loop_step + 1`,
`is_complete` iff some call is named `Complete`, and the unchanged progress.
On exception it returns the `"Error: ..."` assistant message, `loop_step + 1`
and `is_complete = True`. -/
def agent_node (s : ReflectionState) (o : ModelOutcome) : StateUpdate :=
  match o with
  | ModelOutcome.reply content tcs =>
    { messages := some [Message.ai content tcs],
      loop_step := some (s.loop_step + 1),
      is_complete := some (tcs.any fun tc => decide (tc.name = some "Complete")),
      current_progress := some s.current_progress }
  | ModelOutcome.raise msg =>
    { messages := some [Message.ai ("Error: " ++ msg) []],
      loop_step := some (s.loop_step + 1),
      is_complete := some true }

/-- Outcome of `await tool.ainvoke(tool_args)` for one call. -/
inductive ToolExecOutcome
  | ok (result : String)
  | raise (msg : String)
deriving Repr

/-- The per-call body of the loop in `tool_node` (`graph_service.py` lines
131-182).  A `Complete` call appends the placeholder result; a call whose name
matches a registry tool appends either the stringified result or, if the
invocation raises, the `"Error: ..."` result; a call matching no tool (or with
no name) appends nothing. -/
def execToolCall (tools : List String) (orc : GToolCall → ToolExecOutcome)
    (tc : GToolCall) : List ToolMsg :=
  if tc.name = some "Complete" then
    [{ content := "Task completed", tool_call_id := tc.id.getD "complete", name := "Complete" }]
  else
    match tc.name with
    | some n =>
      if n ∈ tools then
        match orc tc with
        | ToolExecOutcome.ok r =>
          [{ content := r, tool_call_id := tc.id.getD "unknown", name := n }]
        | ToolExecOutcome.raise m =>
          [{ content := "Error: " ++ m, tool_call_id := tc.id.getD "error", name := n }]
      else []
    | none => []

/-- `GraphService._extract_progress` (`graph_service.py` lines 404-419). -/
def extract_progress (tool_results : List ToolMsg) (current : String) : String :=
  if tool_results = [] then current
  else
    let new_progress :=
      String.intercalate "\n" (tool_results.map fun r => "Used " ++ r.name ++ ": " ++ r.content)
    if current ≠ "" then current ++ "\n" ++ new_progress else new_progress

/-- `tool_node` (`graph_service.py` lines 125-190): reads
`state["messages"][-1]`, executes every call of its `tool_calls` list in
order, and returns the result list as the `messages` update together with the
accumulated progress. -/
def tool_node (tools : List String) (orc : GToolCall → ToolExecOutcome)
    (s : ReflectionState) : StateUpdate :=
  let tool_results : List ToolMsg :=
    match s.messages.getLast? with
    | some (Message.ai _ tcs) => (tcs.map (execToolCall tools orc)).flatten
    | _ => []
  { messages := some (tool_results.map Message.tool),
    current_progress := some (extract_progress tool_results s.current_progress) }

/-- Outcome of `model.ainvoke(messages)` inside `reflection_node`. -/
inductive ReflectOutcome
  | reply (content : String)
  | raise (msg : String)
deriving Repr

/-- `reflection_node` (`graph_service.py` lines 192-227).  A reply starting
with `COMPLETE:` yields the stripped summary message, `is_complete = True` and
the summary as progress; any other reply yields the `Need to continue:`
message, `is_complete = False` and appended feedback.  An exception yields
only `is_complete = True` — no message at all. -/
def reflection_node (s : ReflectionState) (o : ReflectOutcome) : StateUpdate :=
  match o with
  | ReflectOutcome.reply content =>
    if content.startsWith "COMPLETE:" then
      let summary := (content.replace "COMPLETE:" "").trim
      { messages := some [Message.ai summary []],
        is_complete := some true,
        current_progress := some summary }
    else
      let feedback := (content.replace "CONTINUE:" "").trim
      { messages := some [Message.ai ("Need to continue: " ++ feedback) []],
        is_complete := some false,
        current_progress := some (s.current_progress ++ "\nNext: " ++ feedback) }
  | ReflectOutcome.raise _ => { is_complete := some true }

/-- Targets of the conditional edge out of `agent`. -/
inductive Route
  | continue_
  | reflect
  | tools
  | end_
deriving DecidableEq, Repr

/-- `should_continue` (`graph_service.py` lines 229-254).  The Python body
first evaluates `state["messages"][-1]`, which raises `IndexError` on an empty
message list; `none` models that crash (unreachable after `agent`, which
always writes a one-element message list). -/
def should_continue (s : ReflectionState) : Option Route :=
  match s.messages.getLast? with
  | none => none
  | some last_message =>
    if s.loop_step ≥ maxLoopsOf s then some Route.end_
    else if s.is_complete then some Route.end_
    else
      match last_message with
      | Message.ai _ tcs =>
        if tcs ≠ [] then
          if tcs.any (fun tc => decide (tc.name = some "Complete")) then some Route.end_
          else some Route.tools
        else if 0 < s.loop_step ∧ s.loop_step % 3 = 0 then some Route.reflect
        else some Route.continue_
      | _ =>
        if 0 < s.loop_step ∧ s.loop_step % 3 = 0 then some Route.reflect
        else some Route.continue_

/-- The transition function as claim C6 words it ("tools if a non-Complete
call is present and end if only the Complete call is present"), with all other
clauses as in the claim.  This definition follows the specification text, not
the source; it exists to be compared with `should_continue`. -/
def should_continue_claimed (s : ReflectionState) : Option Route :=
  match s.messages.getLast? with
  | none => none
  | some last_message =>
    if s.loop_step ≥ maxLoopsOf s then some Route.end_
    else if s.is_complete then some Route.end_
    else
      match last_message with
      | Message.ai _ tcs =>
        if tcs ≠ [] then
          if tcs.any (fun tc => decide (tc.name ≠ some "Complete")) then some Route.tools
          else some Route.end_
        else if 0 < s.loop_step ∧ s.loop_step % 3 = 0 then some Route.reflect
        else some Route.continue_
      | _ =>
        if 0 < s.loop_step ∧ s.loop_step % 3 = 0 then some Route.reflect
        else some Route.continue_

/-! ### Running the compiled graph

The compiled graph enters at `agent`; the conditional edge runs
`should_continue` after `agent` only, and `tools` / `reflect` have fixed
edges back to `agent`.  Model responses are supplied by an oracle indexed by
the loop counter. -/

/-- Environment responses for one run. -/
structure Oracle where
  agentResp : Nat → ModelOutcome
  reflectResp : Nat → ReflectOutcome
  toolExec : Nat → GToolCall → ToolExecOutcome

/-- One round of the graph: execute `agent`, evaluate the conditional edge,
and — unless the route is `end` — execute the routed node (`tools`,
`reflect`, or nothing for the self-loop), returning the state that re-enters
`agent`. -/
def nodeStep (tools : List String) (ora : Oracle) (s : ReflectionState) :
    ReflectionState × Option Route :=
  let s1 := applyUpdate s (agent_node s (ora.agentResp s.loop_step))
  match should_continue s1 with
  | none => (s1, none)
  | some Route.end_ => (s1, some Route.end_)
  | some Route.tools =>
    (applyUpdate s1 (tool_node tools (ora.toolExec s1.loop_step) s1), some Route.tools)
  | some Route.reflect =>
    (applyUpdate s1 (reflection_node s1 (ora.reflectResp s1.loop_step)), some Route.reflect)
  | some Route.continue_ => (s1, some Route.continue_)

/-- Run the graph for at most `fuel` passes through `agent`.  Returns the
final state and the number of `agent` passes used, or `none` if the fuel runs
out before the `end` route (or on the unreachable empty-messages crash). -/
def runFrom (tools : List String) (ora : Oracle) :
    Nat → ReflectionState → Option (ReflectionState × Nat)
  | 0, _ => none
  | Nat.succ fuel, s =>
    let p := nodeStep tools ora s
    match p.2 with
    | none => none
    | some Route.end_ => some (p.1, 1)
    | some _ => (runFrom tools ora fuel p.1).map fun q => (q.1, q.2 + 1)

/-! ## Derived counting functions for the dedup properties -/

/-- The `"Tool: name"` response the `tool_args` branch enqueues. -/
def toolNameEvent (c : ToolArgsChunk) : StreamingChatResponse :=
  { type := "tool", content := "Tool: " ++ c.tool_name,
    tool_call_id := c.tool_call_id, is_complete := false }

/-- The `"Tool Input: ..."` response the `tool_args` branch enqueues. -/
def toolInputEvent (c : ToolArgsChunk) : StreamingChatResponse :=
  { type := "tool", content := "Tool Input: " ++ jsonDumps c.args,
    tool_call_id := c.tool_call_id, is_complete := false }

/-- Number of `"Tool: name"` events for identifier `i` emitted while the
`tool_args` branch processes the increments `l` from state `st` (the summand
is exactly the branch's enqueue guard). -/
def nameEmissions (st : CBState) (i : Option String) : List ToolArgsChunk → Nat
  | [] => 0
  | c :: rest =>
    (if c.tool_name ≠ "unknown" ∧ c.tool_call_id ∉ st.seen ∧ c.tool_call_id = i then 1 else 0)
    + nameEmissions (handleToolArgsChunk st c) i rest

end MCPBackend

namespace MCPBackend

/-! ## Helper lemmas and claim theorems -/

theorem handleToolCall_seen_mono (seen : List String) (tc : GToolCall) {x : String}
    (hx : x ∈ seen) : x ∈ (handleToolCall seen tc).1 := by
  simp only [handleToolCall]
  split_ifs <;> simp_all

theorem handleToolCall_emit (seen : List String) (tc : GToolCall) (e : ToolArgsEvent)
    (h : (handleToolCall seen tc).2 = some e) :
    e.tool_call_id ∉ seen ∧ e.tool_call_id ∈ (handleToolCall seen tc).1 := by
  by_cases h1 : (falsyB tc.id || falsyB tc.name) = true
  · simp [handleToolCall, h1] at h
  · by_cases h2 : tc.id.getD "" ∈ seen
    · simp [handleToolCall, h1, h2] at h
    · by_cases h3 : tc.name.getD "" = "Complete"
      · simp [handleToolCall, h1, h2, h3] at h
      · have hh : (⟨tc.id.getD "", tc.name.getD "", tc.args⟩ : ToolArgsEvent) = e := by
          simpa [handleToolCall, h1, h2, h3] using h
        subst hh
        refine ⟨h2, ?_⟩
        simp [handleToolCall, h1, h2, h3]

theorem handleToolArgsChunk_seen_mono (st : CBState) (c : ToolArgsChunk) {x : Option String}
    (hx : x ∈ st.seen) : x ∈ (handleToolArgsChunk st c).seen := by
  unfold handleToolArgsChunk
  split_ifs <;> simp_all

theorem handleToolArgsChunk_seen_new (st : CBState) (c : ToolArgsChunk)
    (hname : c.tool_name ≠ "unknown") (hid : c.tool_call_id ∉ st.seen) :
    (handleToolArgsChunk st c).seen = c.tool_call_id :: st.seen := by
  unfold handleToolArgsChunk
  split_ifs <;> simp_all

theorem nameEmissions_of_seen (i : Option String) :
    ∀ (l : List ToolArgsChunk) (st : CBState), i ∈ st.seen → nameEmissions st i l = 0
  | [], _, _ => rfl
  | c :: rest, st, hi => by
    unfold nameEmissions
    have hrest := nameEmissions_of_seen i rest (handleToolArgsChunk st c)
      (handleToolArgsChunk_seen_mono st c hi)
    rw [hrest]
    by_cases hc : c.tool_name ≠ "unknown" ∧ c.tool_call_id ∉ st.seen ∧ c.tool_call_id = i
    · exact absurd (hc.2.2 ▸ hi) hc.2.1
    · simp [hc]

theorem nameEmissions_le_one (i : Option String) :
    ∀ (l : List ToolArgsChunk) (st : CBState), nameEmissions st i l ≤ 1
  | [], _ => Nat.zero_le 1
  | c :: rest, st => by
    unfold nameEmissions
    by_cases hc : c.tool_name ≠ "unknown" ∧ c.tool_call_id ∉ st.seen ∧ c.tool_call_id = i
    · have hseen : i ∈ (handleToolArgsChunk st c).seen := by
        rw [handleToolArgsChunk_seen_new st c hc.1 hc.2.1, ← hc.2.2]
        exact List.mem_cons_self _ _
      rw [if_pos hc, nameEmissions_of_seen i rest _ hseen]
    · have := nameEmissions_le_one i rest (handleToolArgsChunk st c)
      simp only [hc, if_false]
      omega

theorem htcEmissions_of_seen (i : String) :
    ∀ (l : List GToolCall) (seen : List String), i ∈ seen → htcEmissions seen i l = 0
  | [], _, _ => rfl
  | tc :: rest, seen, hi => by
    unfold htcEmissions handleToolCalls
    rcases h : handleToolCall seen tc with ⟨seen', ev⟩
    have hmono : i ∈ seen' := by
      have := handleToolCall_seen_mono seen tc hi
      rwa [h] at this
    cases ev with
    | none =>
      simpa [htcEmissions] using htcEmissions_of_seen i rest seen' hmono
    | some e =>
      have hne : e.tool_call_id ≠ i := by
        intro hcontra
        have := (handleToolCall_emit seen tc e (by rw [h])).1
        exact this (hcontra ▸ hi)
      rcases h2 : handleToolCalls seen' rest with ⟨seenFin, evs⟩
      have hrest := htcEmissions_of_seen i rest seen' hmono
      unfold htcEmissions at hrest
      rw [h2] at hrest
      simp only [hrest, List.filter_cons]
      simp_all

theorem htcEmissions_le_one (i : String) :
    ∀ (l : List GToolCall) (seen : List String), htcEmissions seen i l ≤ 1
  | [], _ => Nat.zero_le 1
  | tc :: rest, seen => by
    unfold htcEmissions handleToolCalls
    rcases h : handleToolCall seen tc with ⟨seen', ev⟩
    cases ev with
    | none =>
      simpa [htcEmissions] using htcEmissions_le_one i rest seen'
    | some e =>
      rcases h2 : handleToolCalls seen' rest with ⟨seenFin, evs⟩
      have hrest := htcEmissions_le_one i rest seen'
      unfold htcEmissions at hrest
      rw [h2] at hrest
      by_cases hid : e.tool_call_id = i
      · have hmem : i ∈ seen' := by
          have := (handleToolCall_emit seen tc e (by rw [h])).2
          rwa [h, hid] at this
        have h0 := htcEmissions_of_seen i rest seen' hmem
        unfold htcEmissions at h0
        rw [h2] at h0
        simp_all [List.filter_cons]
      · simp_all [List.filter_cons]


/-! ## Claim C3 -/

/-- C3 counterexample: the claim says at most one `tool_name`/`tool_args`
event pair is emitted per identifier no matter how many raw increments repeat
it.  Feeding the same `tool_args` increment (identifier `t1`, non-empty args)
twice through the `/chat/stream` callback emits three events for `t1`: the
deduplicated `"Tool: search"` plus two copies of `"Tool Input: ..."` — the
`if args:` enqueue is outside the seen-set guard. -/
theorem C3_counterexample :
    (handleToolArgsChunk (handleToolArgsChunk CBState.init ⟨some "t1", "search", [("q", "x")]⟩)
        ⟨some "t1", "search", [("q", "x")]⟩).queue =
      [{ type := "tool", content := "Tool: search", tool_call_id := some "t1",
         is_complete := false },
       { type := "tool", content := "Tool Input: " ++ jsonDumps [("q", "x")],
         tool_call_id := some "t1", is_complete := false },
       { type := "tool", content := "Tool Input: " ++ jsonDumps [("q", "x")],
         tool_call_id := some "t1", is_complete := false }] := by
  decide

/-- C3 (amended): for every identifier, at most one `tool_name` event is ever
emitted by the `tool_args` branch of the app-level callback, and the
streaming-service normaliser `_handle_tool_call` forwards at most one combined
event per identifier, recording a `Complete` call in the seen set while
emitting nothing; but the `"Tool Input:"` event of the `tool_args` branch is
emitted for every increment with non-empty args, regardless of the seen
set. -/
theorem C3_amended_dedup :
    (∀ (l : List ToolArgsChunk) (st : CBState) (i : Option String),
      nameEmissions st i l ≤ 1) ∧
    (∀ (st : CBState) (c : ToolArgsChunk), c.args ≠ [] →
      (handleToolArgsChunk st c).queue =
        st.queue ++
          (if c.tool_name ≠ "unknown" ∧ c.tool_call_id ∉ st.seen then [toolNameEvent c] else [])
          ++ [toolInputEvent c]) ∧
    (∀ (seen : List String) (i : String) (l : List GToolCall),
      htcEmissions seen i l ≤ 1) ∧
    (∀ (seen : List String) (i : String) (a : List (String × String)),
      i ≠ "" → i ∉ seen →
        handleToolCall seen ⟨some i, some "Complete", a⟩ = (i :: seen, none)) := by
  refine ⟨fun l st i => nameEmissions_le_one i l st, ?_, fun seen i l => htcEmissions_le_one i l seen, ?_⟩
  · intro st c ha
    unfold handleToolArgsChunk toolNameEvent toolInputEvent
    split_ifs <;> simp_all
  · intro seen i a hi hmem
    simp [handleToolCall, falsyB, hi, hmem]

/-- C3 witness: instances of `C3_amended_dedup` at concrete inputs. -/
theorem C3_amended_dedup_witness :
    nameEmissions CBState.init (some "t1") [⟨some "t1", "search", [("q", "x")]⟩] ≤ 1 ∧
    htcEmissions [] "t1" [⟨some "t1", some "search", []⟩] ≤ 1 ∧
    handleToolCall [] ⟨some "c1", some "Complete", []⟩ = (["c1"], none) := by
  refine ⟨C3_amended_dedup.1 _ _ _, C3_amended_dedup.2.2.1 _ _ _, ?_⟩
  exact C3_amended_dedup.2.2.2 [] "c1" [] (by decide) (by simp)

/-! ## Claim C4 -/

/-- C4 counterexample: the claim says tool results are never deduplicated by
content.  Two `tools` increments with distinct call identifiers but identical
textual content produce only one `tool_result` event: the second is dropped
because `"Tool Result: 22C sunny"` is already in `collected_tool_calls`. -/
theorem C4_counterexample :
    (handleToolsChunk (handleToolsChunk CBState.init ⟨"weather", some "t1", "22C sunny"⟩)
        ⟨"weather", some "t2", "22C sunny"⟩).queue =
      [{ type := "tool", content := "Tool Result: 22C sunny", tool_call_id := some "t1",
         is_complete := false }] := by
  decide

/-- C4 (amended): a `tools`-state increment carrying content emits one
`tool_result` event exactly when its formatted `"Tool Result: ..."` string has
not been collected earlier in the run; identical textual results are
deduplicated, so re-processing the same result content emits nothing. -/
theorem C4_amended_result_dedup :
    ∀ (st : CBState) (c : ToolsChunk),
      (handleToolsChunk st c =
        if c.content ≠ "" ∧ ("Tool Result: " ++ c.content) ∉ st.collected then
          { st with
            collected := st.collected ++ ["Tool Result: " ++ c.content],
            queue := st.queue ++
              [{ type := "tool", content := "Tool Result: " ++ c.content,
                 tool_call_id := c.tool_call_id, is_complete := false }] }
        else st) ∧
      (handleToolsChunk (handleToolsChunk st c) c).queue = (handleToolsChunk st c).queue := by
  intro st c
  constructor
  · unfold handleToolsChunk
    split_ifs <;> simp_all
  · by_cases h1 : c.content = ""
    · simp [handleToolsChunk, h1]
    · by_cases h2 : ("Tool Result: " ++ c.content) ∈ st.collected
      · simp [handleToolsChunk, h1, h2]
      · simp [handleToolsChunk, h1, h2]

/-! ## Claim C10 -/

/-- C10: a raw tool-call increment with a missing/empty id or missing/empty
name is dropped by `_handle_tool_call` without touching the seen set, so a
later increment carrying the same call with id and name filled in is surfaced,
and surfaced only once. -/
theorem C10_falsy_call_skipped (seen : List String) (tc : GToolCall)
    (h : falsyB tc.id || falsyB tc.name) :
    handleToolCall seen tc = (seen, none) ∧
    ∀ (i n : String) (a a' : List (String × String)),
      i ∉ seen → i ≠ "" → n ≠ "" → n ≠ "Complete" →
        handleToolCall seen ⟨some i, some n, a⟩ =
          (i :: seen, some ⟨i, n, a⟩) ∧
        handleToolCall (i :: seen) ⟨some i, some n, a'⟩ = (i :: seen, none) := by
  constructor
  · simp [handleToolCall, h]
  · intro i n a a' hmem hi hn hc
    constructor
    · simp [handleToolCall, falsyB, hi, hn, hmem, hc]
    · simp [handleToolCall, falsyB, hi, hn]

/-- C10 witness: a call with a missing id is skipped, then the filled-in call
with id `t1` is surfaced once. -/
theorem C10_falsy_call_skipped_witness :
    handleToolCall [] ⟨none, some "weather", []⟩ = ([], none) ∧
    handleToolCall [] ⟨some "t1", some "weather", []⟩ = (["t1"], some ⟨"t1", "weather", []⟩) ∧
    handleToolCall ["t1"] ⟨some "t1", some "weather", []⟩ = (["t1"], none) := by
  have h := C10_falsy_call_skipped [] ⟨none, some "weather", []⟩ (by decide)
  have h2 := h.2 "t1" "weather" [] [] (by simp) (by decide) (by decide) (by decide)
  exact ⟨h.1, h2.1, h2.2⟩

/-! ## Claim C5 -/

/-- C5 counterexample: the claim says every issued ToolCall yields exactly one
ToolResult.  A call naming a tool that matches no registry entry (here
`nonexistent`, registry `["weather"]`) silently yields no ToolResult at all:
`tool_node` finds `tool = None`, the `if tool:` guard skips the append, and no
exception is raised. -/
theorem C5_counterexample :
    tool_node ["weather"] (fun _ => ToolExecOutcome.ok "okr")
        { messages := [Message.ai "" [⟨some "t1", some "nonexistent", []⟩]],
          loop_step := 1, original_request := "r", tools_available := ["weather"],
          current_progress := "", is_complete := false, max_loops := some 10 } =
      { messages := some [], current_progress := some "" } := by
  rfl

/-- C5 (amended): every issued ToolCall naming `Complete` or a registered tool
yields exactly one ToolResult (`Complete` the no-op placeholder, a raising
tool the `Error:` text), results are gathered per call independently of the
siblings' outcomes, and a call naming no registered tool yields none. -/
theorem C5_tool_results :
    (∀ (tools : List String) (orc : GToolCall → ToolExecOutcome) (tc : GToolCall),
      tc.name = some "Complete" →
        execToolCall tools orc tc =
          [⟨"Task completed", tc.id.getD "complete", "Complete"⟩]) ∧
    (∀ (tools : List String) (orc : GToolCall → ToolExecOutcome) (tc : GToolCall)
        (n m : String), tc.name = some n → n ≠ "Complete" → n ∈ tools →
        orc tc = ToolExecOutcome.raise m →
          execToolCall tools orc tc = [⟨"Error: " ++ m, tc.id.getD "error", n⟩]) ∧
    (∀ (tools : List String) (orc : GToolCall → ToolExecOutcome) (tc : GToolCall)
        (n : String), tc.name = some n → (n ∈ tools ∨ n = "Complete") →
          (execToolCall tools orc tc).length = 1) ∧
    (∀ (tools : List String) (orc : GToolCall → ToolExecOutcome) (tc : GToolCall)
        (n : String), tc.name = some n → n ∉ tools → n ≠ "Complete" →
          execToolCall tools orc tc = []) ∧
    (∀ (tools : List String) (orc : GToolCall → ToolExecOutcome)
        (s : ReflectionState) (content : String) (tcs : List GToolCall),
      s.messages.getLast? = some (Message.ai content tcs) →
        (tool_node tools orc s).messages =
          some (((tcs.map (execToolCall tools orc)).flatten).map Message.tool)) := by
  refine ⟨?_, ?_, ?_, ?_, ?_⟩
  · intro tools orc tc h
    simp [execToolCall, h]
  · intro tools orc tc n m hn hnc hmem horc
    simp [execToolCall, hn, hnc, hmem, horc]
  · intro tools orc tc n hn hcase
    rcases hcase with hmem | hc
    · by_cases hnc : n = "Complete"
      · simp [execToolCall, hn, hnc]
      · cases horc : orc tc <;> simp [execToolCall, hn, hnc, hmem, horc]
    · simp [execToolCall, hn, hc]
  · intro tools orc tc n hn hmem hnc
    simp [execToolCall, hn, hnc, hmem]
  · intro tools orc s content tcs hlast
    simp [tool_node, hlast]

/-- C5 witness: instances of `C5_tool_results` at concrete calls. -/
theorem C5_tool_results_witness :
    execToolCall ["weather"] (fun _ => ToolExecOutcome.raise "boom")
        ⟨some "c1", some "Complete", []⟩ = [⟨"Task completed", "c1", "Complete"⟩] ∧
    execToolCall ["weather"] (fun _ => ToolExecOutcome.raise "boom")
        ⟨some "t1", some "weather", []⟩ = [⟨"Error: boom", "t1", "weather"⟩] ∧
    execToolCall ["weather"] (fun _ => ToolExecOutcome.ok "22C")
        ⟨some "t2", some "time", []⟩ = [] := by
  refine ⟨C5_tool_results.1 _ _ _ rfl, ?_, ?_⟩
  · exact C5_tool_results.2.1 _ _ _ "weather" "boom" rfl (by decide) (by simp) rfl
  · exact C5_tool_results.2.2.2.1 _ _ _ "time" rfl (by simp) (by decide)

/-! ## Claim C8 -/

/-- C8 counterexample: the claim says an exception in the reflect node is
converted into an assistant-visible error message appended to `messages`.  In
the code, `reflection_node`'s `except` arm returns only
`{"is_complete": True}`: at this concrete state the merged state's messages
are unchanged and the update carries no message at all. -/
theorem C8_counterexample :
    (applyUpdate
        { messages := [Message.human "hi"], loop_step := 1, original_request := "hi",
          tools_available := [], current_progress := "", is_complete := false,
          max_loops := some 10 }
        (reflection_node
          { messages := [Message.human "hi"], loop_step := 1, original_request := "hi",
            tools_available := [], current_progress := "", is_complete := false,
            max_loops := some 10 }
          (ReflectOutcome.raise "boom"))).messages = [Message.human "hi"] ∧
    (reflection_node
        { messages := [Message.human "hi"], loop_step := 1, original_request := "hi",
          tools_available := [], current_progress := "", is_complete := false,
          max_loops := some 10 }
        (ReflectOutcome.raise "boom")).messages = none := by
  exact ⟨rfl, rfl⟩

/-- C8 (amended): an exception in the agent node is caught and converted into
an assistant-visible `Error:` message carried in the node's message update,
with `is_complete` forced true, and the following conditional edge routes to
`end`; an exception in the reflect node is caught and forces
`is_complete = true` but produces no message — the merged state's messages are
untouched. -/
theorem C8_fail_to_terminal :
    (∀ (s : ReflectionState) (m : String),
      agent_node s (ModelOutcome.raise m) =
        { messages := some [Message.ai ("Error: " ++ m) []],
          loop_step := some (s.loop_step + 1), is_complete := some true }) ∧
    (∀ (s : ReflectionState) (m : String),
      should_continue (applyUpdate s (agent_node s (ModelOutcome.raise m))) =
        some Route.end_) ∧
    (∀ (s : ReflectionState) (m : String),
      reflection_node s (ReflectOutcome.raise m) = { is_complete := some true }) ∧
    (∀ (s : ReflectionState) (m : String),
      (applyUpdate s (reflection_node s (ReflectOutcome.raise m))).is_complete = true ∧
      (applyUpdate s (reflection_node s (ReflectOutcome.raise m))).messages = s.messages) := by
  refine ⟨fun s m => rfl, ?_, fun s m => rfl, fun s m => ⟨rfl, rfl⟩⟩
  intro s m
  simp only [should_continue, applyUpdate, agent_node, maxLoopsOf]
  split_ifs <;> simp_all

/-! ## Claim C9 -/

/-- C9 (code bug): `ReflectionState.messages` has no reducer annotation, so
each node's returned message list replaces the channel instead of being
appended.  At this concrete run the agent step discards the human message and
the tools step discards the agent response: neither prior message sequence is
a prefix of its successor. -/
theorem C9_messages_replaced_not_appended :
    (applyUpdate
        { messages := [Message.human "hi"], loop_step := 0, original_request := "hi",
          tools_available := ["weather"], current_progress := "", is_complete := false,
          max_loops := some 10 }
        (agent_node
          { messages := [Message.human "hi"], loop_step := 0, original_request := "hi",
            tools_available := ["weather"], current_progress := "", is_complete := false,
            max_loops := some 10 }
          (ModelOutcome.reply "using weather"
            [⟨some "t1", some "weather", [("city", "Paris")]⟩]))).messages =
      [Message.ai "using weather" [⟨some "t1", some "weather", [("city", "Paris")]⟩]] ∧
    (List.isPrefixOf [Message.human "hi"]
      [Message.ai "using weather" [⟨some "t1", some "weather", [("city", "Paris")]⟩]]) = false ∧
    (applyUpdate
        { messages := [Message.ai "using weather" [⟨some "t1", some "weather", [("city", "Paris")]⟩]],
          loop_step := 1, original_request := "hi", tools_available := ["weather"],
          current_progress := "", is_complete := false, max_loops := some 10 }
        (tool_node ["weather"] (fun _ => ToolExecOutcome.ok "22C")
          { messages := [Message.ai "using weather" [⟨some "t1", some "weather", [("city", "Paris")]⟩]],
            loop_step := 1, original_request := "hi", tools_available := ["weather"],
            current_progress := "", is_complete := false, max_loops := some 10 })).messages =
      [Message.tool ⟨"22C", "t1", "weather"⟩] ∧
    (List.isPrefixOf
      [Message.ai "using weather" [⟨some "t1", some "weather", [("city", "Paris")]⟩]]
      [Message.tool ⟨"22C", "t1", "weather"⟩]) = false := by
  refine ⟨rfl, by decide, rfl, by decide⟩

/-! ## Claim C6 -/

theorem route_eq_of_complete (s1 : ReflectionState) (hic : s1.is_complete = true) :
    should_continue s1 = should_continue_claimed s1 := by
  unfold should_continue should_continue_claimed
  cases hl : s1.messages.getLast? with
  | none => rfl
  | some m =>
    by_cases h1 : s1.loop_step ≥ maxLoopsOf s1
    · simp [h1]
    · simp [h1, hic]

theorem route_eq_of_post_agent (s1 : ReflectionState) (c : String) (tcs : List GToolCall)
    (hmsg : s1.messages = [Message.ai c tcs])
    (hic : s1.is_complete = (tcs.any fun tc => decide (tc.name = some "Complete"))) :
    should_continue s1 = should_continue_claimed s1 := by
  by_cases hany : (tcs.any fun tc => decide (tc.name = some "Complete")) = true
  · exact route_eq_of_complete s1 (hic.trans hany)
  · have h2 : s1.is_complete = false := by rw [hic]; simpa using hany
    have hforall : ∀ tc ∈ tcs, ¬ tc.name = some "Complete" := by
      simpa using hany
    unfold should_continue should_continue_claimed
    rw [hmsg]
    by_cases h1 : s1.loop_step ≥ maxLoopsOf s1
    · simp [h1]
    · cases tcs with
      | nil => simp [h1, h2]
      | cons hd tl =>
        have h3 : ((hd :: tl).any fun tc => decide (tc.name = some "Complete")) = false := by
          simpa using hforall
        have h4 : ((hd :: tl).any fun tc => decide (tc.name ≠ some "Complete")) = true := by
          simp only [List.any_cons, Bool.or_eq_true, decide_eq_true_eq]
          exact Or.inl (hforall hd (List.mem_cons_self hd tl))
        have h5 : ¬hd.name = some "Complete" ∨ ∃ x ∈ tl, ¬x.name = some "Complete" :=
          Or.inl (hforall hd (List.mem_cons_self hd tl))
        simp [h1, h2, h3, h4, h5]

/-- C6: evaluated on any state the agent node just produced, the code's
conditional edge `should_continue` agrees everywhere with the claim's priority
list `should_continue_claimed` (loop cap, then `is_complete`, then the
tool-call discrimination, then the every-third-loop reflection rule, then the
agent self-loop). -/
theorem C6_route_priority_after_agent (s : ReflectionState) (o : ModelOutcome) :
    should_continue (applyUpdate s (agent_node s o)) =
    should_continue_claimed (applyUpdate s (agent_node s o)) := by
  cases o with
  | reply content tcs => exact route_eq_of_post_agent _ content tcs rfl rfl
  | raise m => exact route_eq_of_complete _ rfl

/-! ## Claim C7 -/

theorem agent_loop_step (s : ReflectionState) (o : ModelOutcome) :
    (applyUpdate s (agent_node s o)).loop_step = s.loop_step + 1 := by
  cases o <;> rfl

theorem tool_node_loop_step (tools : List String) (orc : GToolCall → ToolExecOutcome)
    (s : ReflectionState) :
    (applyUpdate s (tool_node tools orc s)).loop_step = s.loop_step := rfl

theorem reflection_loop_step (s : ReflectionState) (o : ReflectOutcome) :
    (applyUpdate s (reflection_node s o)).loop_step = s.loop_step := by
  cases o with
  | reply content =>
    by_cases h : content.startsWith "COMPLETE:" <;> simp [reflection_node, applyUpdate, h]
  | raise m => rfl

theorem agent_max_loops (s : ReflectionState) (o : ModelOutcome) :
    (applyUpdate s (agent_node s o)).max_loops = s.max_loops := rfl

theorem tool_node_max_loops (tools : List String) (orc : GToolCall → ToolExecOutcome)
    (s : ReflectionState) :
    (applyUpdate s (tool_node tools orc s)).max_loops = s.max_loops := rfl

theorem reflection_max_loops (s : ReflectionState) (o : ReflectOutcome) :
    (applyUpdate s (reflection_node s o)).max_loops = s.max_loops := rfl

theorem post_agent_messages_ne (s : ReflectionState) (o : ModelOutcome) :
    (applyUpdate s (agent_node s o)).messages ≠ [] := by
  cases o <;> simp [applyUpdate, agent_node]

theorem should_continue_ne_none (s : ReflectionState) (h : s.messages ≠ []) :
    should_continue s ≠ none := by
  unfold should_continue
  cases hl : s.messages.getLast? with
  | none =>
    rw [List.getLast?_eq_none_iff] at hl
    exact absurd hl h
  | some m =>
    cases m <;> simp <;> split_ifs <;> simp

theorem should_continue_ge_end (s : ReflectionState) (hne : s.messages ≠ [])
    (hge : maxLoopsOf s ≤ s.loop_step) : should_continue s = some Route.end_ := by
  unfold should_continue
  cases hl : s.messages.getLast? with
  | none =>
    rw [List.getLast?_eq_none_iff] at hl
    exact absurd hl hne
  | some m => simp [hge]

theorem route_lt_max (s : ReflectionState) (r : Route)
    (h : should_continue s = some r) (hr : r ≠ Route.end_) :
    s.loop_step < maxLoopsOf s := by
  by_contra hge
  push_neg at hge
  have hne : s.messages ≠ [] := by
    intro hnil
    unfold should_continue at h
    rw [hnil] at h
    simp at h
  rw [should_continue_ge_end s hne hge] at h
  injection h with h2
  exact hr h2.symm

theorem runFrom_reaches_end (tools : List String) (ora : Oracle) :
    ∀ (fuel : Nat) (s : ReflectionState), 0 < fuel → maxLoopsOf s ≤ s.loop_step + fuel →
      ∃ fin n, runFrom tools ora fuel s = some (fin, n) ∧ n ≤ fuel := by
  intro fuel
  induction fuel with
  | zero => intro s hpos; omega
  | succ k ih =>
    intro s hpos hbound
    have hmsg := post_agent_messages_ne s (ora.agentResp s.loop_step)
    cases hr : should_continue (applyUpdate s (agent_node s (ora.agentResp s.loop_step))) with
    | none => exact absurd hr (should_continue_ne_none _ hmsg)
    | some r =>
      have hloop1 : (applyUpdate s (agent_node s (ora.agentResp s.loop_step))).loop_step
          = s.loop_step + 1 := agent_loop_step s _
      have hmax1 : maxLoopsOf (applyUpdate s (agent_node s (ora.agentResp s.loop_step)))
          = maxLoopsOf s := by unfold maxLoopsOf; rw [agent_max_loops]
      cases r with
      | end_ =>
        refine ⟨applyUpdate s (agent_node s (ora.agentResp s.loop_step)), 1, ?_, by omega⟩
        simp [runFrom, nodeStep, hr]
      | tools =>
        have hlt := route_lt_max _ _ hr (by simp)
        rw [hloop1, hmax1] at hlt
        set s1 := applyUpdate s (agent_node s (ora.agentResp s.loop_step)) with hs1
        set s2 := applyUpdate s1 (tool_node tools (ora.toolExec s1.loop_step) s1) with hs2
        have hl2 : s2.loop_step = s.loop_step + 1 := by
          rw [hs2, tool_node_loop_step, hs1, hloop1]
        have hm2 : maxLoopsOf s2 = maxLoopsOf s := by
          unfold maxLoopsOf
          rw [hs2, tool_node_max_loops, hs1, agent_max_loops]
        obtain ⟨fin, n, heq, hn⟩ := ih s2 (by omega) (by omega)
        refine ⟨fin, n + 1, ?_, by omega⟩
        simp [runFrom, nodeStep, hr, ← hs1, ← hs2, heq]
      | reflect =>
        have hlt := route_lt_max _ _ hr (by simp)
        rw [hloop1, hmax1] at hlt
        set s1 := applyUpdate s (agent_node s (ora.agentResp s.loop_step)) with hs1
        set s2 := applyUpdate s1 (reflection_node s1 (ora.reflectResp s1.loop_step)) with hs2
        have hl2 : s2.loop_step = s.loop_step + 1 := by
          rw [hs2, reflection_loop_step, hs1, hloop1]
        have hm2 : maxLoopsOf s2 = maxLoopsOf s := by
          unfold maxLoopsOf
          rw [hs2, reflection_max_loops, hs1, agent_max_loops]
        obtain ⟨fin, n, heq, hn⟩ := ih s2 (by omega) (by omega)
        refine ⟨fin, n + 1, ?_, by omega⟩
        simp [runFrom, nodeStep, hr, ← hs1, ← hs2, heq]
      | continue_ =>
        have hlt := route_lt_max _ _ hr (by simp)
        rw [hloop1, hmax1] at hlt
        set s1 := applyUpdate s (agent_node s (ora.agentResp s.loop_step)) with hs1
        obtain ⟨fin, n, heq, hn⟩ := ih s1 (by omega) (by rw [hloop1]; omega)
        refine ⟨fin, n + 1, ?_, by omega⟩
        simp [runFrom, nodeStep, hr, ← hs1, heq]

/-- C7: in the reflective graph, every pass through the agent node increments
`loop_step` by exactly one (on the success and the caught-exception paths
alike), neither the tools node nor the reflect node changes `loop_step`, and
from `loop_step = 0` every run reaches the `end` route within
`max_loops` (`state.get("max_loops", 10)`) agent passes. -/
theorem C7_loop_step_and_termination :
    (∀ (s : ReflectionState) (o : ModelOutcome),
      (applyUpdate s (agent_node s o)).loop_step = s.loop_step + 1) ∧
    (∀ (tools : List String) (orc : GToolCall → ToolExecOutcome) (s : ReflectionState),
      (applyUpdate s (tool_node tools orc s)).loop_step = s.loop_step) ∧
    (∀ (s : ReflectionState) (o : ReflectOutcome),
      (applyUpdate s (reflection_node s o)).loop_step = s.loop_step) ∧
    (∀ (tools : List String) (ora : Oracle) (s : ReflectionState),
      s.loop_step = 0 → 1 ≤ maxLoopsOf s →
        ∃ fin n, runFrom tools ora (maxLoopsOf s) s = some (fin, n) ∧ n ≤ maxLoopsOf s) := by
  refine ⟨agent_loop_step, tool_node_loop_step, reflection_loop_step, ?_⟩
  intro tools ora s h0 h1
  exact runFrom_reaches_end tools ora (maxLoopsOf s) s h1 (by omega)

/-- C7 witness: a concrete run (the model immediately calls `Complete`) ends
within the default ten agent passes. -/
theorem C7_loop_step_and_termination_witness :
    (runFrom []
      ⟨fun _ => ModelOutcome.reply "done" [⟨some "c1", some "Complete", []⟩],
       fun _ => ReflectOutcome.reply "COMPLETE: done",
       fun _ _ => ToolExecOutcome.ok "ok"⟩
      (maxLoopsOf ⟨[Message.human "q"], 0, "q", [], "", false, some 10⟩)
      ⟨[Message.human "q"], 0, "q", [], "", false, some 10⟩).isSome = true := by
  obtain ⟨fin, n, heq, -⟩ := C7_loop_step_and_termination.2.2.2 []
    ⟨fun _ => ModelOutcome.reply "done" [⟨some "c1", some "Complete", []⟩],
     fun _ => ReflectOutcome.reply "COMPLETE: done",
     fun _ _ => ToolExecOutcome.ok "ok"⟩
    ⟨[Message.human "q"], 0, "q", [], "", false, some 10⟩ rfl (by decide)
  rw [heq]
  rfl

/-! ## Claims C1 and C2 -/

theorem processAgentToolCalls_shape :
    ∀ (l : List GToolCall) (st : CBState),
      ∃ tail, (processAgentToolCalls st l).queue = st.queue ++ tail ∧
        ∀ e ∈ tail, e.type = "tool"
  | [], st => ⟨[], by simp [processAgentToolCalls], by simp⟩
  | tc :: rest, st => by
    simp only [processAgentToolCalls]
    split_ifs with h1 h2
    · obtain ⟨tail, heq, htl⟩ := processAgentToolCalls_shape rest
        { st with seen := some (tc.id.getD (tc.name.getD "Unknown" ++ "_" ++
            toString st.collected.length)) :: st.seen }
      exact ⟨tail, heq, htl⟩
    · refine ⟨[{ type := "tool",
                 content := "Tool: " ++ tc.name.getD "Unknown",
                 tool_call_id := some (tc.id.getD (tc.name.getD "Unknown" ++ "_" ++
                   toString st.collected.length)),
                 is_complete := false }], rfl, ?_⟩
      intro e he
      rw [List.mem_singleton] at he
      subst he
      rfl
    · exact processAgentToolCalls_shape rest st

theorem processBlocks_shape :
    ∀ (l : List ContentBlock) (st : CBState),
      ∃ tail, (processBlocks st l).queue = st.queue ++ tail ∧
        ∀ e ∈ tail, e.type = "text" ∨ e.type = "tool"
  | [], st => ⟨[], by simp [processBlocks], by simp⟩
  | ContentBlock.textB t :: rest, st => by
    simp only [processBlocks]
    split_ifs with h1
    · refine ⟨[{ type := "text", content := t, tool_call_id := none,
                 is_complete := false }], rfl, ?_⟩
      intro e he
      rw [List.mem_singleton] at he
      subst he
      exact Or.inl rfl
    · exact processBlocks_shape rest st
  | ContentBlock.toolUseB id name :: rest, st => by
    simp only [processBlocks]
    split_ifs with h1 h2
    · obtain ⟨tail, heq, htl⟩ := processBlocks_shape rest
        { st with seen := some (id.getD (name.getD "Unknown" ++ "_" ++
            toString st.collected.length)) :: st.seen }
      exact ⟨tail, heq, htl⟩
    · refine ⟨[{ type := "tool",
                 content := "Tool: " ++ name.getD "Unknown",
                 tool_call_id := some (id.getD (name.getD "Unknown" ++ "_" ++
                   toString st.collected.length)),
                 is_complete := false }], rfl, ?_⟩
      intro e he
      rw [List.mem_singleton] at he
      subst he
      exact Or.inr rfl
    · exact processBlocks_shape rest st
  | ContentBlock.otherB :: rest, st => by
    simp only [processBlocks]
    exact processBlocks_shape rest st

theorem handleAgentChunk_shape (st : CBState) (m : AgentMsg) :
    ∃ tail, (handleAgentChunk st m).queue = st.queue ++ tail ∧
      ∀ e ∈ tail, e.type = "text" ∨ e.type = "tool" := by
  have hpa : ∀ (st1 : CBState), st1.queue = st.queue →
      ∃ tail, (processAgentToolCalls st1 m.tool_calls).queue = st.queue ++ tail ∧
        ∀ e ∈ tail, e.type = "text" ∨ e.type = "tool" := by
    intro st1 hq
    obtain ⟨tail, heq, htl⟩ := processAgentToolCalls_shape m.tool_calls st1
    exact ⟨tail, by rw [heq, hq], fun e he => Or.inr (htl e he)⟩
  rcases m with ⟨mc, mtc⟩
  rcases mc with _ | pc
  · simpa only [handleAgentChunk] using hpa st rfl
  · rcases pc with s | l
    · simp only [handleAgentChunk]
      split_ifs with h1 h2
      · refine ⟨[{ type := "text", content := s, tool_call_id := none,
                   is_complete := false }], rfl, ?_⟩
        intro e he
        rw [List.mem_singleton] at he
        subst he
        exact Or.inl rfl
      · exact ⟨[], by simp, by simp⟩
      · exact hpa st rfl
    · simp only [handleAgentChunk]
      split_ifs with h1
      · exact processBlocks_shape l st
      · exact hpa st rfl

theorem handleToolArgsChunk_shape (st : CBState) (c : ToolArgsChunk) :
    ∃ tail, (handleToolArgsChunk st c).queue = st.queue ++ tail ∧
      ∀ e ∈ tail, e.type = "tool" := by
  simp only [handleToolArgsChunk]
  split_ifs with h1 h2
  · refine ⟨[{ type := "tool", content := "Tool: " ++ c.tool_name,
               tool_call_id := c.tool_call_id, is_complete := false },
             { type := "tool", content := "Tool Input: " ++ jsonDumps c.args,
               tool_call_id := c.tool_call_id, is_complete := false }], by simp, ?_⟩
    intro e he
    rcases List.mem_cons.mp he with he | he
    · subst he; rfl
    · rw [List.mem_singleton] at he
      subst he
      rfl
  · refine ⟨[{ type := "tool", content := "Tool Input: " ++ jsonDumps c.args,
               tool_call_id := c.tool_call_id, is_complete := false }], rfl, ?_⟩
    intro e he
    rw [List.mem_singleton] at he
    subst he
    rfl
  · refine ⟨[{ type := "tool", content := "Tool: " ++ c.tool_name,
               tool_call_id := c.tool_call_id, is_complete := false }], rfl, ?_⟩
    intro e he
    rw [List.mem_singleton] at he
    subst he
    rfl
  · exact ⟨[], by simp, by simp⟩

theorem handleToolsChunk_shape (st : CBState) (c : ToolsChunk) :
    ∃ tail, (handleToolsChunk st c).queue = st.queue ++ tail ∧
      ∀ e ∈ tail, e.type = "tool" := by
  simp only [handleToolsChunk]
  split_ifs with h1 h2
  · exact ⟨[], by simp, by simp⟩
  · exact ⟨[], by simp, by simp⟩
  · refine ⟨[{ type := "tool", content := "Tool Result: " ++ c.content,
               tool_call_id := c.tool_call_id, is_complete := false }], rfl, ?_⟩
    intro e he
    rw [List.mem_singleton] at he
    subst he
    rfl

theorem applyCallback_shape (st : CBState) (c : CallbackChunk) :
    ∃ tail, (applyCallback st c).queue = st.queue ++ tail ∧
      ∀ e ∈ tail, e.type = "text" ∨ e.type = "tool" := by
  cases c with
  | agent m => exact handleAgentChunk_shape st m
  | tool_args ca =>
    obtain ⟨tail, heq, htl⟩ := handleToolArgsChunk_shape st ca
    exact ⟨tail, heq, fun e he => Or.inr (htl e he)⟩
  | tools ct =>
    obtain ⟨tail, heq, htl⟩ := handleToolsChunk_shape st ct
    exact ⟨tail, heq, fun e he => Or.inr (htl e he)⟩
  | other => exact ⟨[], by simp [applyCallback], by simp⟩

theorem foldl_callback_nonterminal :
    ∀ (cs : List CallbackChunk) (st : CBState),
      (∀ e ∈ st.queue, terminalB e = false) →
      ∀ e ∈ (cs.foldl applyCallback st).queue, terminalB e = false
  | [], _, hst => hst
  | c :: rest, st, hst => by
    rw [List.foldl_cons]
    refine foldl_callback_nonterminal rest _ ?_
    intro e he
    obtain ⟨tail, heq, htl⟩ := applyCallback_shape st c
    rw [heq] at he
    rcases List.mem_append.mp he with h | h
    · exact hst e h
    · rcases htl e h with h2 | h2 <;> simp [terminalB, h2]

/-- Every event the `/chat/stream` callback ever enqueues is non-terminal:
only the producer's `finally` block and the consumer's `except` arm create
terminal events. -/
theorem runCallbacks_nonterminal (cs : List CallbackChunk) :
    ∀ e ∈ (runCallbacks cs).queue, terminalB e = false := by
  refine foldl_callback_nonterminal cs CBState.init ?_
  intro e he
  simp [CBState.init] at he

theorem producerQueue_eq (bodyEvents : List StreamingChatResponse) (oc : ChatOutcome) :
    producerQueue bodyEvents oc = bodyEvents ++ [completeResp] := by
  cases oc <;> rfl

theorem consume_shape (emsg : String) :
    ∀ (bs : List StreamingChatResponse) (fault : Option Nat),
      (∀ e ∈ bs, terminalB e = false) →
      ∃ pre t, consume emsg (bs ++ [completeResp]) fault = pre ++ [t] ∧
        terminalB t = true ∧ ∀ e ∈ pre, terminalB e = false
  | [], fault, _ => by
    by_cases hf : fault = some 0
    · exact ⟨[], errorResp emsg, by simp [consume, hf], rfl, by simp⟩
    · exact ⟨[], completeResp, by simp [consume, hf, completeResp], rfl, by simp⟩
  | e :: rest, fault, hbs => by
    by_cases hf : fault = some 0
    · exact ⟨[], errorResp emsg, by simp [consume, hf], rfl, by simp⟩
    · have hne := hbs e (List.mem_cons_self e rest)
      have hnc : ¬ e.type = "complete" := by
        simp only [terminalB, Bool.or_eq_false_iff, decide_eq_false_iff_not] at hne
        exact hne.1
      obtain ⟨pre, t, heq, ht, hpre⟩ :=
        consume_shape emsg rest (decFault fault) (fun x hx => hbs x (List.mem_cons_of_mem e hx))
      refine ⟨e :: pre, t, ?_, ht, ?_⟩
      · simp [consume, hf, hnc, heq]
      · intro x hx
        rcases List.mem_cons.mp hx with hx | hx
        · subst hx; exact hne
        · exact hpre x hx

theorem consume_no_fault (emsg : String) :
    ∀ (bs : List StreamingChatResponse),
      (∀ e ∈ bs, terminalB e = false) →
      consume emsg (bs ++ [completeResp]) none = bs ++ [completeResp]
  | [], _ => by simp [consume, completeResp]
  | e :: rest, hbs => by
    have hne := hbs e (List.mem_cons_self e rest)
    have hnc : ¬ e.type = "complete" := by
      simp only [terminalB, Bool.or_eq_false_iff, decide_eq_false_iff_not] at hne
      exact hne.1
    have := consume_no_fault emsg rest (fun x hx => hbs x (List.mem_cons_of_mem e hx))
    simp [consume, hnc, decFault, this]

/-- C1: in every interactive run — whatever callbacks fire, whether the chat
coroutine returns or raises (timeout included), and whether the forwarding
loop hits an unexpected exception — the sequence of events forwarded to the
transport consists of non-terminal events followed by exactly one terminal
event (`complete` or `error`), which is the last event forwarded: the
producer's `finally` enqueues the terminal completion event on every exit
path, and the consumer stops right after forwarding a terminal event. -/
theorem C1_exactly_one_terminal_last (cs : List CallbackChunk) (g : GraphOutcome)
    (t : Nat) (fault : Option Nat) (emsg : String) :
    ∃ pre term,
      consume emsg (producerQueue (runCallbacks cs).queue (chatOutcome t g)) fault =
        pre ++ [term] ∧
      terminalB term = true ∧ ∀ e ∈ pre, terminalB e = false := by
  rw [producerQueue_eq]
  exact consume_shape emsg (runCallbacks cs).queue fault (runCallbacks_nonterminal cs)

/-- C2 counterexample: the claim says an expired deadline is reported to the
interactive caller as a single `error` terminal event.  In a timed-out run
(no callbacks fired, no consumer fault) the transport receives exactly the
`complete` event — `run_chat` swallows the `RuntimeError` in its `finally`
path and enqueues the completion event, so the terminal event kind is
`complete`, not `error`. -/
theorem C2_counterexample :
    consume "" (producerQueue (runCallbacks []).queue (chatOutcome 120 GraphOutcome.timedOut))
        none = [completeResp] ∧
    completeResp.type ≠ "error" := by
  exact ⟨rfl, by decide⟩

/-- C2 (amended): on deadline expiry `asyncio.wait_for` cancels the graph run
and `AgentService.chat` raises
`RuntimeError("Request timed out after N seconds")`, which batch mode
surfaces to the caller as an error; interactive mode, however, still runs the
producer's `finally` cleanup, so the events already produced are forwarded
followed by the single terminal `complete` event (the timeout is not surfaced
as an `error` event). -/
theorem C2_timeout_surfacing :
    (∀ t : Nat, chatBatch t GraphOutcome.timedOut =
      Except.error ("Request timed out after " ++ toString t ++ " seconds")) ∧
    (∀ (cs : List CallbackChunk) (t : Nat),
      consume "" (producerQueue (runCallbacks cs).queue (chatOutcome t GraphOutcome.timedOut))
          none = (runCallbacks cs).queue ++ [completeResp]) := by
  refine ⟨fun t => rfl, ?_⟩
  intro cs t
  rw [producerQueue_eq]
  exact consume_no_fault "" (runCallbacks cs).queue (runCallbacks_nonterminal cs)

end MCPBackend
